import Mathlib

/-!
# pg_xmltype: append / delete / collect over XPath matches

Shallow embedding of `src/pg_xmltype/pg_xmltype.c`.

The C file is a thin layer over libxml2 and the PostgreSQL xml type.  The
embedding keeps the control flow of the five C functions (`c_appendchildxml`,
`c_deletexml`, `appendchildxml`, `deletexml`, `getarrayxml`) line by line.
What they call is split in two:

* the tree surgery of libxml2 (`xmlAddChild`, `xmlUnlinkNode`, `xmlFreeNode`,
  `xmlDocCopyNode`, `xmlDocGetRootElement`) and the release of an XPath result
  (`xmlXPathFreeObject`) are not in the repository; they are modelled from the
  specification (sections 4.3 and 5) as computable functions over a node tree
  in which every node carries its address, so that a pointer held in an XPath
  node set keeps denoting the same node while the tree is edited, and freed
  addresses are remembered;
* parsing, XPath evaluation, serialization and the two PostgreSQL functions
  `xmltotext_with_xmloption` and `xmlparse` are fields of an environment `Env`;
  theorems quantify over every environment, and the contract a theorem needs
  from it is a hypothesis.

Element and text nodes are represented; attribute and namespace nodes and the
document node as an XPath match are outside the model.
-/

namespace PgXmltype

/-! ## Data model -/

/-- The node types of libxml2 that the model represents. -/
inductive xmlElementType where
  | XML_ELEMENT_NODE
  | XML_TEXT_NODE
deriving DecidableEq, Repr

/-- A libxml2 node pointer together with what it points to, in the library's
own first-child / next-sibling layout: `null` is the NULL pointer, `node` a node
of the given `type` stored at address `addr` with its `children` chain and its
`next` sibling.  `name` is the tag of an element; for a text node the field
holds its content. -/
inductive xmlNode where
  | null : xmlNode
  | node (type : xmlElementType) (addr : Nat) (name : String) (children : xmlNode)
      (next : xmlNode) : xmlNode
deriving DecidableEq, Repr

/-- An element node. -/
@[match_pattern] def xmlNode.elem (addr : Nat) (name : String) (children next : xmlNode) :
    xmlNode :=
  .node .XML_ELEMENT_NODE addr name children next

/-- A text node: it has no children. -/
@[match_pattern] def xmlNode.text (addr : Nat) (content : String) (next : xmlNode) : xmlNode :=
  .node .XML_TEXT_NODE addr content .null next

/-- The fields of `xmlDoc` the C code touches: `children` and `encoding`. -/
structure xmlDoc where
  children : xmlNode
  encoding : Option String
deriving DecidableEq, Repr

/-- The NULL address. -/
def NULL : Nat := 0

/-- The `type` field of an XPath result object. -/
inductive xmlXPathObjectType where
  | XPATH_UNDEFINED
  | XPATH_NODESET
  | XPATH_BOOLEAN
  | XPATH_NUMBER
  | XPATH_STRING
deriving DecidableEq, Repr

/-- An XPath result: `nodesetval` is `none` for a NULL node set, otherwise the
`nodeTab` array (addresses of the matched nodes); `nodeNr` is its length. -/
structure xmlXPathObject where
  type : xmlXPathObjectType
  nodesetval : Option (List Nat)
deriving DecidableEq, Repr

/-- PostgreSQL `XmlOptionType`. -/
inductive XmlOptionType where
  | XMLOPTION_DOCUMENT
  | XMLOPTION_CONTENT
deriving DecidableEq, Repr

/-- The PostgreSQL `xml` datum is its text. -/
abbrev xmltype := String

/-- A result array: one entry per element, `none` for an SQL NULL entry. -/
abbrev ArrayType := List (Option xmltype)

/-- The library and host functions the C file calls but does not define, as
parameters.  `xmlXPathNewContext` and `xmlBufferCreate` only report whether the
allocation succeeded (`xmlBufferCreate i` for the call made in loop iteration
`i`).  The two PostgreSQL functions return their result or the message of the
error they raise. -/
structure Env where
  xmlParseDoc : String → Option xmlDoc
  xmlParseMemory : String → Option xmlDoc
  xmlXPathNewContext : xmlDoc → Bool
  xmlXPathEvalExpression : String → xmlDoc → Option xmlXPathObject
  xmlDocDumpMemory : xmlDoc → Option String
  xmlBufferCreate : Nat → Bool
  xmlNodeDump : xmlDoc → xmlNode → String
  xmltotext_with_xmloption : xmltype → XmlOptionType → Except String String
  xmlparse : String → XmlOptionType → Except String xmltype

/-! ## Tree functions of libxml2 -/

/-- Addresses of all nodes of a chain, in document order (node, then its
children, then its following siblings). -/
def addrs : xmlNode → List Nat
  | .null => []
  | .node _ a _ c s => a :: (addrs c ++ addrs s)

/-- Largest address in a chain (0 for NULL). -/
def maxAddr : xmlNode → Nat
  | .null => 0
  | .node _ a _ c s => max a (max (maxAddr c) (maxAddr s))

/-- Dereference: the node stored at address `p`, if it is in the chain. -/
def findNode (p : Nat) : xmlNode → Option xmlNode
  | .null => none
  | .node ty a n c s =>
    if a = p then some (.node ty a n c s)
    else match findNode p c with
      | some r => some r
      | none => findNode p s

/-- A node seen without its siblings: what `xmlNodeDump`, `xmlDocCopyNode` and
`xmlFreeNode` act on. -/
def alone : xmlNode → xmlNode
  | .null => .null
  | .node ty a n c _ => .node ty a n c .null

/-- Link `cur` after the last node of a sibling chain. -/
def appendSibling : xmlNode → xmlNode → xmlNode
  | .null, cur => cur
  | .node ty a n c s, cur => .node ty a n c (appendSibling s cur)

/-- Modelled from the spec: the effect of libxml2's `xmlAddChild(parent, cur)`,
which is not in the repository, on the chain that holds `parent`: `cur` is
appended as the last child of the node at address `parent` (section 4.3,
`append_child`).  When `parent` is a text node the library links nothing: it
adds the content of `cur` (none, for an element) to the text and frees `cur`. -/
def addChildAt (parent : Nat) (cur : xmlNode) : xmlNode → xmlNode
  | .null => .null
  | .node ty a n c s =>
    if a = parent then
      if ty = .XML_TEXT_NODE then .node ty a n c s
      else .node ty a n (appendSibling c cur) s
    else .node ty a n (addChildAt parent cur c) (addChildAt parent cur s)

/-- Modelled from the spec: the effect of libxml2's `xmlUnlinkNode`, which is not
in the repository, on the chain that holds the node at address `p`: the node is
unlinked from its parent with the subtree rooted at it, its next sibling takes
its place (section 4.3, `delete_node`). -/
def unlinkAt (p : Nat) : xmlNode → xmlNode
  | .null => .null
  | .node ty a n c s =>
    if a = p then s
    else .node ty a n (unlinkAt p c) (unlinkAt p s)

/-- Copy of a chain placed `k` addresses higher. -/
def shift (k : Nat) : xmlNode → xmlNode
  | .null => .null
  | .node ty a n c s => .node ty (k + a) n (shift k c) (shift k s)

/-- The chain with its addresses forgotten: two chains have the same shape when
they are the same XML. -/
def shape : xmlNode → xmlNode
  | .null => .null
  | .node ty _ n c s => .node ty 0 n (shape c) (shape s)

/-- The first element node of a sibling chain, NULL when there is none. -/
def firstElement : xmlNode → xmlNode
  | .null => .null
  | .node ty a n c s =>
    if ty = .XML_ELEMENT_NODE then .node ty a n c s else firstElement s

/-- Addresses, in document order, of the text nodes of a chain. -/
def textAddrs : xmlNode → List Nat
  | .null => []
  | .node ty a _ c s =>
    (if ty = .XML_TEXT_NODE then [a] else []) ++ (textAddrs c ++ textAddrs s)

/-- Modelled from the spec: libxml2's `xmlDocGetRootElement`, which is not in the
repository: the root node the document owns (section 3), that is the first
element among `doc->children`, NULL when there is none. -/
def xmlDocGetRootElement (doc : xmlDoc) : xmlNode :=
  firstElement doc.children

/-- Modelled from the spec: libxml2's `xmlDocCopyNode(node, doc, 1)`, which is
not in the repository: the deep copy of section 4.3, a copy of `node` and of
everything below it in fresh memory; `brk` is an address above every live node
of the target document, the copy is placed from there on.  Allocation failure
(a NULL result) is not modelled. -/
def xmlDocCopyNode (node : xmlNode) (brk : Nat) : Option xmlNode :=
  some (shift brk (alone node))

/-- Modelled from the spec: libxml2's `xmlAddChild(parent, cur)`, which is not in
the repository, on a document: `cur` becomes the last child of `parent`
(section 4.3); `none` when `parent` does not point into the document. -/
def xmlAddChild (doc : xmlDoc) (parent : Nat) (cur : xmlNode) : Option xmlDoc :=
  if parent ∈ addrs doc.children then
    some { doc with children := addChildAt parent cur doc.children }
  else none

/-- Memory as the deletion loop sees it: the document, the subtrees that have
been unlinked and not yet freed, and the addresses already freed. -/
structure Heap where
  doc : xmlDoc
  loose : List xmlNode
  freed : List Nat
deriving DecidableEq, Repr

/-- Modelled from the spec: libxml2's `xmlUnlinkNode(node)`, which is not in the
repository: unlinks the node from its parent (section 4.3, `delete_node`).
Touching a freed node, or a pointer that denotes nothing, is undefined
(`none`). -/
def xmlUnlinkNode (node : Nat) (h : Heap) : Option Heap :=
  if node ∈ h.freed then none
  else match findNode node h.doc.children with
    | some n =>
      some { h with doc := { h.doc with children := unlinkAt node h.doc.children },
                    loose := alone n :: h.loose }
    | none => none

/-- Modelled from the spec: libxml2's `xmlFreeNode(node)`, which is not in the
repository: discards the subtree rooted at an unlinked node (section 4.3,
`delete_node`).  Freeing a freed node, or one that is still linked, is undefined
(`none`). -/
def xmlFreeNode (node : Nat) (h : Heap) : Option Heap :=
  if node ∈ h.freed then none
  else match h.loose.find? (fun n => (addrs n).head? = some node) with
    | some n => some { h with loose := h.loose.erase n, freed := h.freed ++ addrs n }
    | none => none

/-- Modelled from the spec: libxml2's `xmlXPathFreeObject`, which is not in the
repository: releases a selector result set (section 5).  For a node set the
library looks at the node behind every non-NULL entry of `nodeTab` (its `type`)
before it frees the table; an entry whose node has been freed makes the call
undefined (`none`). -/
def xmlXPathFreeObject (obj : xmlXPathObject) (h : Heap) : Option Heap :=
  if obj.type = .XPATH_NODESET then
    match obj.nodesetval with
    | some nodeTab =>
      if ∃ p ∈ nodeTab, p ≠ NULL ∧ p ∈ h.freed then none else some h
    | none => some h
  else some h

/-! ## The C functions

A result `none` stands for undefined behaviour (a freed or dangling pointer is
used); `Except.error msg` is `ereport(ERROR, ...)`. -/

/-- The `for` loop of `c_appendchildxml` over `nodeTab[0 .. nodeNr-1]`; the
state is the document and the first address not yet in use. -/
def c_appendchildxml_loop (fragment_root : xmlNode) :
    List Nat → xmlDoc × Nat → Option (xmlDoc × Nat)
  | [], st => some st
  | target :: rest, (doc, brk) =>
    match xmlDocCopyNode fragment_root brk with
    | some imported =>
      match xmlAddChild doc target imported with
      | some doc1 =>
        c_appendchildxml_loop fragment_root rest (doc1, brk + maxAddr (alone fragment_root) + 1)
      | none => none
    | none => c_appendchildxml_loop fragment_root rest (doc, brk)

/-- The block of `c_appendchildxml` that parses the fragment and runs the loop:
the document after it. -/
def c_appendchildxml_edit (env : Env) (doc : xmlDoc) (nodeTab : List Nat)
    (xml_child_node : String) : Option xmlDoc :=
  match env.xmlParseDoc xml_child_node with
  | some fragment =>
    match xmlDocGetRootElement fragment with
    | .null => some doc
    | .node ty a n c s =>
      (c_appendchildxml_loop (.node ty a n c s) nodeTab (doc, maxAddr doc.children + 1)).map Prod.fst
  | none => some doc

/-- The end of both C functions: `xmlDocDumpMemory` and the value stored in
`*result_xml` (the dump, or a copy of the input text when there is none). -/
def dumpResult (env : Env) (doc : xmlDoc) (xml_doc : String) : Option String :=
  match env.xmlDocDumpMemory doc with
  | some output => some output
  | none => some xml_doc

/-- `c_appendchildxml`: the return code and the final value of `*result_xml`
(`result_xml` is its value on entry).  The cleanup of lines 93-95 is not
represented: this function frees no node of the document, so that
`xmlXPathFreeObject` finds every node of the table alive. -/
def c_appendchildxml (env : Env) (xml_doc xpath xml_child_node : String)
    (result_xml : Option String) : Option (Int × Option String) :=
  match env.xmlParseDoc xml_doc with
  | none => some (-1, result_xml)
  | some doc0 =>
    let doc : xmlDoc := { doc0 with encoding := some "UTF-8" }
    if env.xmlXPathNewContext doc = false then some (-1, result_xml)
    else match env.xmlXPathEvalExpression xpath doc with
      | none => some (-1, result_xml)
      | some xpath_result =>
        match xpath_result.nodesetval with
        | none => some (-1, result_xml)
        | some nodeTab =>
          if nodeTab.length = 0 then some (-1, result_xml)
          else
            match c_appendchildxml_edit env doc nodeTab xml_child_node with
            | none => none
            | some doc1 => some (0, dumpResult env doc1 xml_doc)

/-- The `for` loop of `c_deletexml`, given the node table already reversed
(`i` runs from `nodeNr - 1` down to `0`); the state is the memory and
`nodes_deleted`. -/
def c_deletexml_loop : List Nat → Heap × Nat → Option (Heap × Nat)
  | [], st => some st
  | node :: rest, (h, nodes_deleted) =>
    if node ≠ NULL then
      match (xmlUnlinkNode node h).bind (xmlFreeNode node) with
      | some h2 => c_deletexml_loop rest (h2, nodes_deleted + 1)
      | none => none
    else c_deletexml_loop rest (h, nodes_deleted)

/-- The document after the deletion block of `c_deletexml`, with the memory
state and `nodes_deleted`. -/
def c_deletexml_edit (doc : xmlDoc) (xpath_result : xmlXPathObject) : Option (Heap × Nat) :=
  match xpath_result.nodesetval with
  | some nodeTab =>
    if nodeTab.length > 0 then
      c_deletexml_loop nodeTab.reverse ({ doc := doc, loose := [], freed := [] }, 0)
    else some ({ doc := doc, loose := [], freed := [] }, 0)
  | none => some ({ doc := doc, loose := [], freed := [] }, 0)

/-- Lines 104-149 of `c_deletexml`, up to the point where `*result_xml` has been
written: the return code, the value of `*result_xml`, and, when the cleanup of
lines 151-153 is still to run, the XPath result and the memory it will see
(`none` in third place for the early returns). -/
def c_deletexml_body (env : Env) (xml_doc xpath : String) (result_xml : Option String) :
    Option (Int × Option String × Option (xmlXPathObject × Heap)) :=
  match env.xmlParseDoc xml_doc with
  | none => some (-1, result_xml, none)
  | some doc0 =>
    let doc : xmlDoc := { doc0 with encoding := some "UTF-8" }
    if env.xmlXPathNewContext doc = false then some (-1, result_xml, none)
    else match env.xmlXPathEvalExpression xpath doc with
      | none => some (-1, result_xml, none)
      | some xpath_result =>
        match c_deletexml_edit doc xpath_result with
        | none => none
        | some (h, _) => some (0, dumpResult env h.doc xml_doc, some (xpath_result, h))

/-- The text `c_deletexml` has stored in `*result_xml` when its cleanup starts
(`none` when nothing was stored or the deletion loop is undefined). -/
def c_deletexml_stored (env : Env) (xml_doc xpath : String) : Option String :=
  match c_deletexml_body env xml_doc xpath none with
  | some (_, result_xml, _) => result_xml
  | none => none

/-- `c_deletexml`: the return code and the final value of `*result_xml`.  After
the body, `xmlXPathFreeObject(xpath_result)` runs on the node table the loop has
left as it was. -/
def c_deletexml (env : Env) (xml_doc xpath : String) (result_xml : Option String) :
    Option (Int × Option String) :=
  match c_deletexml_body env xml_doc xpath result_xml with
  | none => none
  | some (rc, out, none) => some (rc, out)
  | some (rc, out, some (xpath_result, h)) =>
    match xmlXPathFreeObject xpath_result h with
    | some _ => some (rc, out)
    | none => none

/-- The tail shared by the two SQL wrappers: what they return once the C
function has given `res_code` and `result_xml`. -/
def wrapResult (env : Env) (node : xmltype) (res_code : Int) (result_xml : Option String) :
    Option (Except String xmltype) :=
  if res_code = -1 then
    match result_xml with
    | some r => some (env.xmlparse r .XMLOPTION_CONTENT)
    | none => some (.ok node)
  else
    match result_xml with
    | some r => some (env.xmlparse r .XMLOPTION_CONTENT)
    | none => none

/-- SQL function `appendchildxml(xml, text, xml)`. -/
def appendchildxml (env : Env) (node : xmltype) (xpath_str : String) (child_node : xmltype) :
    Option (Except String xmltype) :=
  match env.xmltotext_with_xmloption node .XMLOPTION_DOCUMENT with
  | .error e => some (.error e)
  | .ok node_cstr =>
    match env.xmltotext_with_xmloption child_node .XMLOPTION_CONTENT with
    | .error e => some (.error e)
    | .ok child_cstr =>
      match c_appendchildxml env node_cstr xpath_str child_cstr none with
      | none => none
      | some (res_code, result_xml) => wrapResult env node res_code result_xml

/-- SQL function `deletexml(xml, text)`. -/
def deletexml (env : Env) (node : xmltype) (xpath_str : String) :
    Option (Except String xmltype) :=
  match env.xmltotext_with_xmloption node .XMLOPTION_DOCUMENT with
  | .error e => some (.error e)
  | .ok node_cstr =>
    match c_deletexml env node_cstr xpath_str none with
    | none => none
    | some (res_code, result_xml) => wrapResult env node res_code result_xml

/-- Put one entry in front of the entries the rest of the loop produces. -/
def consEntry (e : Option xmltype) :
    Option (Except String ArrayType) → Option (Except String ArrayType)
  | some (.ok arr) => some (.ok (e :: arr))
  | some (.error msg) => some (.error msg)
  | none => none

/-- The body of the `for` loop of `getarrayxml` at iteration `i`: the entry
`(dvalues[i], dnulls[i])` it stores for `node`, an error raised by `xmlparse`,
or `none` when `node` points nowhere. -/
def getarrayxml_entry (env : Env) (doc : xmlDoc) (i : Nat) (node : Nat) :
    Option (Except String (Option xmltype)) :=
  if env.xmlBufferCreate i = false then some (.ok none)
  else
    match findNode node doc.children with
    | none => none
    | some n =>
      let node_str := env.xmlNodeDump doc (alone n)
      if 0 < node_str.length then
        match env.xmlparse node_str .XMLOPTION_CONTENT with
        | .error e => some (.error e)
        | .ok xml_node => some (.ok (some xml_node))
      else some (.ok none)

/-- The `for` loop of `getarrayxml` from iteration `i` on, over the rest of
`nodeTab`: the entries for the iterations `j >= i`. -/
def getarrayxml_loop (env : Env) (doc : xmlDoc) :
    Nat → List Nat → Option (Except String ArrayType)
  | _, [] => some (.ok [])
  | i, node :: rest =>
    match getarrayxml_entry env doc i node with
    | none => none
    | some (.error e) => some (.error e)
    | some (.ok entry) => consEntry entry (getarrayxml_loop env doc (i + 1) rest)

/-- The end of `getarrayxml`: the array built from the entries is returned
(`construct_md_array`, or `construct_empty_array` when there is no entry). -/
def returnArray : Option (Except String ArrayType) → Option (Except String (Option ArrayType))
  | none => none
  | some (.error e) => some (.error e)
  | some (.ok array) => some (.ok (some array))

/-- SQL function `getarrayxml(xml, text)`; a NULL argument is `none`, and so is
the SQL NULL result.  The cleanup of lines 375-380 is not represented: no node
has been freed when `xmlXPathFreeObject` runs. -/
def getarrayxml (env : Env) (xml_data : Option xmltype) (xpath_text : Option String) :
    Option (Except String (Option ArrayType)) :=
  match xml_data with
  | none => some (.ok none)
  | some data =>
    let xpath_str : String :=
      match xpath_text with
      | some t => t
      | none => "//*"
    match env.xmlParseMemory data with
    | none => some (.error "invalid XML document")
    | some doc =>
      if env.xmlXPathNewContext doc = false then
        some (.error "could not create XPath context")
      else match env.xmlXPathEvalExpression xpath_str doc with
        | none => some (.error "XPath evaluation failed")
        | some result =>
          if result.type ≠ .XPATH_NODESET then
            some (.error "XPath expression must return a node set")
          else
            let nodes : List Nat :=
              match result.nodesetval with
              | some nodeTab => nodeTab
              | none => []
            returnArray (getarrayxml_loop env doc 0 nodes)

/-! ## What the claims speak of -/

/-- The chain without the nodes whose address is in `matched` and without
everything below them; the other nodes stay where they are, in order. -/
def prune (matched : List Nat) : xmlNode → xmlNode
  | .null => .null
  | .node ty a n c s =>
    if a ∈ matched then prune matched s
    else .node ty a n (prune matched c) (prune matched s)

/-- The chain in which every node whose address is in `matched` has `frag` as
one more child after its last child, and nothing else differs. -/
def graft (matched : List Nat) (frag : xmlNode) : xmlNode → xmlNode
  | .null => .null
  | .node ty a n c s =>
    if a ∈ matched then .node ty a n (appendSibling (graft matched frag c) frag) (graft matched frag s)
    else .node ty a n (graft matched frag c) (graft matched frag s)

/-- A document whose nodes sit at pairwise distinct, non-NULL addresses. -/
def WellFormed (doc : xmlDoc) : Prop :=
  (addrs doc.children).Nodup ∧ NULL ∉ addrs doc.children

instance (doc : xmlDoc) : Decidable (WellFormed doc) := by
  unfold WellFormed; infer_instance

/-- A node table lists nodes of the document in document order, each once. -/
def InDocOrder (nodeTab : List Nat) (doc : xmlDoc) : Prop :=
  nodeTab.Sublist (addrs doc.children)

instance (nodeTab : List Nat) (doc : xmlDoc) : Decidable (InDocOrder nodeTab doc) := by
  unfold InDocOrder; infer_instance

/-- Addresses, in document order, of the elements whose name is in `names`: what
a name test such as `//a` or `//b|//c` selects. -/
def namedIn (names : List String) : xmlNode → List Nat
  | .null => []
  | .node ty a n c s =>
    (if ty = .XML_ELEMENT_NODE ∧ n ∈ names then [a] else []) ++
      (namedIn names c ++ namedIn names s)

/-- Text of a chain of nodes: a text node is its content, an empty element is
self-closed. -/
def serialize : xmlNode → String
  | .null => ""
  | .node ty _ n c s =>
    (if ty = .XML_TEXT_NODE then n
     else match c with
       | .null => "<" ++ n ++ "/>"
       | .node _ _ _ _ _ => "<" ++ n ++ ">" ++ serialize c ++ "</" ++ n ++ ">") ++ serialize s

/-- Text of a whole document: XML declaration, content, final newline. -/
def dumpDoc (doc : xmlDoc) : String :=
  "<?xml version=\"1.0\"" ++
    (match doc.encoding with
     | some e => " encoding=\"" ++ e ++ "\""
     | none => "") ++ "?>\n" ++ serialize doc.children ++ "\n"

/-- Addresses, in document order, of the element nodes of a chain. -/
def elemAddrs : xmlNode → List Nat
  | .null => []
  | .node ty a _ c s =>
    (if ty = .XML_ELEMENT_NODE then [a] else []) ++ (elemAddrs c ++ elemAddrs s)

/-- Address of the first element child of the root element, if any. -/
def firstChildOfRoot (t : xmlNode) : List Nat :=
  match firstElement t with
  | .node _ _ _ c _ =>
    (match firstElement c with
     | .node _ a _ _ _ => [a]
     | .null => [])
  | .null => []

/-- Address of the root element when it has the given name. -/
def rootNamed (name : String) (t : xmlNode) : List Nat :=
  match firstElement t with
  | .node _ a n _ _ => if n = name then [a] else []
  | .null => []

/-- The documents the small parser knows. -/
def toyParse (text : String) : Option xmlDoc :=
  if text = "<root><item/></root>" then
    some ⟨.elem 1 "root" (.elem 2 "item" .null .null) .null, none⟩
  else if text = "<child/>" then
    some ⟨.elem 1 "child" .null .null, none⟩
  else if text = "<root>hi</root>" then
    some ⟨.elem 1 "root" (.text 2 "hi" .null) .null, none⟩
  else if text = "<root><a/><b/></root>" then
    some ⟨.elem 1 "root" (.elem 2 "a" .null (.elem 3 "b" .null .null)) .null, none⟩
  else if text = "<a><b/><c/></a>" then
    some ⟨.elem 1 "a" (.elem 2 "b" .null (.elem 3 "c" .null .null)) .null, none⟩
  else if text = "<?xml version=\"1.0\" encoding=\"UTF-8\"?>\n<root><b/></root>\n" then
    some ⟨.elem 1 "root" (.elem 2 "b" .null .null) .null, some "UTF-8"⟩
  else if text = "<?xml version=\"1.0\" encoding=\"UTF-8\"?>\n<root/>\n" then
    some ⟨.elem 1 "root" .null .null, some "UTF-8"⟩
  else none

/-- The expressions the small evaluator knows, with their XPath meaning. -/
def toyEval (xpath : String) (doc : xmlDoc) : Option xmlXPathObject :=
  if xpath = "/root" then some ⟨.XPATH_NODESET, some (rootNamed "root" doc.children)⟩
  else if xpath = "//a" then some ⟨.XPATH_NODESET, some (namedIn ["a"] doc.children)⟩
  else if xpath = "//b|//c" then some ⟨.XPATH_NODESET, some (namedIn ["b", "c"] doc.children)⟩
  else if xpath = "//*" then some ⟨.XPATH_NODESET, some (elemAddrs doc.children)⟩
  else if xpath = "/descendant-or-self::*" then
    some ⟨.XPATH_NODESET, some (elemAddrs doc.children)⟩
  else if xpath = "//text()" then some ⟨.XPATH_NODESET, some (textAddrs doc.children)⟩
  else if xpath = "/*/*[1]" then some ⟨.XPATH_NODESET, some (firstChildOfRoot doc.children)⟩
  else if xpath = "//nonexistent" then
    some ⟨.XPATH_NODESET, some (namedIn ["nonexistent"] doc.children)⟩
  else none

/-- The small environment: allocations succeed, and the PostgreSQL functions
accept every text and return it as it is. -/
def toyEnv : Env where
  xmlParseDoc := toyParse
  xmlParseMemory := toyParse
  xmlXPathNewContext := fun _ => true
  xmlXPathEvalExpression := toyEval
  xmlDocDumpMemory := fun doc => some (dumpDoc doc)
  xmlBufferCreate := fun _ => true
  xmlNodeDump := fun _ node => serialize node
  xmltotext_with_xmloption := fun data _ => .ok data
  xmlparse := fun data _ => .ok data

/-- Whenever `c_appendchildxml` stores a result text, its return code is 0. -/
theorem c_appendchildxml_written (env : Env) (d xpath f : String) (rc : Int) (out : String)
    (h : c_appendchildxml env d xpath f none = some (rc, some out)) : rc = 0 := by
  unfold c_appendchildxml at h
  cases hp : env.xmlParseDoc d with
  | none => simp [hp] at h
  | some doc0 =>
    simp only [hp] at h
    by_cases hc : env.xmlXPathNewContext { doc0 with encoding := some "UTF-8" } = false
    · simp [hc] at h
    · simp only [hc, if_false] at h
      cases he : env.xmlXPathEvalExpression xpath { doc0 with encoding := some "UTF-8" } with
      | none => simp [he] at h
      | some r =>
        simp only [he] at h
        cases hn : r.nodesetval with
        | none => simp [hn] at h
        | some tab =>
          simp only [hn] at h
          by_cases hl : tab.length = 0
          · simp [hl] at h
          · simp only [hl, if_false] at h
            cases hed : c_appendchildxml_edit env { doc0 with encoding := some "UTF-8" } tab f with
            | none => simp [hed] at h
            | some doc1 =>
              simp only [hed] at h
              simp at h
              exact h.1.symm

/-- C2: when the path matches no node of the document (the node set is NULL or
empty), `c_appendchildxml` returns -1 and leaves `*result_xml` untouched, the SQL
function `appendchildxml` returns its first argument as it was, and -1 is never
the code of a call that produced a document (that code is 0). -/
theorem append_zero_matches_noop (env : Env) (d xpath f : String) (doc0 : xmlDoc)
    (r : xmlXPathObject)
    (htext : env.xmltotext_with_xmloption d .XMLOPTION_DOCUMENT = .ok d)
    (htextf : env.xmltotext_with_xmloption f .XMLOPTION_CONTENT = .ok f)
    (hparse : env.xmlParseDoc d = some doc0)
    (heval : env.xmlXPathEvalExpression xpath { doc0 with encoding := some "UTF-8" } = some r)
    (hzero : r.nodesetval = none ∨ r.nodesetval = some []) :
    c_appendchildxml env d xpath f none = some (-1, none) ∧
    appendchildxml env d xpath f = some (.ok d) ∧
    ∀ (d1 xpath1 f1 : String) (rc : Int) (out : String),
      c_appendchildxml env d1 xpath1 f1 none = some (rc, some out) → rc = 0 ∧ rc ≠ -1 := by
  have h1 : c_appendchildxml env d xpath f none = some (-1, none) := by
    unfold c_appendchildxml
    simp only [hparse, heval]
    rcases hzero with h | h <;> simp [h]
  refine ⟨h1, ?_, ?_⟩
  · simp [appendchildxml, htext, htextf, h1, wrapResult]
  · intro d1 xpath1 f1 rc out h
    have := c_appendchildxml_written env d1 xpath1 f1 rc out h
    omega

/-- The theorem at `<root><item/></root>`, path `//nonexistent`. -/
theorem append_zero_matches_noop_witness :
    c_appendchildxml toyEnv "<root><item/></root>" "//nonexistent" "<child/>" none
      = some (-1, none) ∧
    appendchildxml toyEnv "<root><item/></root>" "//nonexistent" "<child/>"
      = some (.ok "<root><item/></root>") :=
  have h := append_zero_matches_noop toyEnv "<root><item/></root>" "//nonexistent" "<child/>"
    ⟨.elem 1 "root" (.elem 2 "item" .null .null) .null, none⟩
    ⟨.XPATH_NODESET, some []⟩ rfl rfl rfl rfl (Or.inr rfl)
  ⟨h.1, h.2.1⟩

/-! ## Delete: zero matches -/

/-- Releasing an XPath result is defined when no node has been freed. -/
theorem xmlXPathFreeObject_of_nothing_freed (obj : xmlXPathObject) (h : Heap)
    (hf : h.freed = []) : xmlXPathFreeObject obj h = some h := by
  unfold xmlXPathFreeObject
  by_cases ht : obj.type = .XPATH_NODESET
  · cases hn : obj.nodesetval with
    | none => simp [ht]
    | some tab => simp [ht, hf]
  · simp [ht]

/-- C5: when the path is valid and matches no node (the node set is NULL or
empty), `c_deletexml` deletes nothing: it returns 0 and the serialization of the
parsed input document, whose node tree is node for node that of the input (only
the encoding label is set to UTF-8), or the input text itself when the
serializer gives nothing; `deletexml` returns that text through `xmlparse`. -/
theorem delete_zero_matches_unchanged (env : Env) (d xpath : String) (doc0 : xmlDoc)
    (r : xmlXPathObject)
    (htext : env.xmltotext_with_xmloption d .XMLOPTION_DOCUMENT = .ok d)
    (hparse : env.xmlParseDoc d = some doc0)
    (hctx : env.xmlXPathNewContext { doc0 with encoding := some "UTF-8" } = true)
    (heval : env.xmlXPathEvalExpression xpath { doc0 with encoding := some "UTF-8" } = some r)
    (hzero : r.nodesetval = none ∨ r.nodesetval = some []) :
    ∃ doc1 : xmlDoc, doc1.children = doc0.children ∧
      prune [] doc0.children = doc0.children ∧
      c_deletexml env d xpath none = some (0, some ((env.xmlDocDumpMemory doc1).getD d)) ∧
      deletexml env d xpath
        = some (env.xmlparse ((env.xmlDocDumpMemory doc1).getD d) .XMLOPTION_CONTENT) := by
  have hprune : ∀ t : xmlNode, prune [] t = t := by
    intro t
    induction t with
    | null => rfl
    | node ty a n c s ihc ihs => simp [prune, ihc, ihs]
  have hed : c_deletexml_edit { doc0 with encoding := some "UTF-8" } r
      = some ({ doc := { doc0 with encoding := some "UTF-8" }, loose := [], freed := [] }, 0) := by
    rcases hzero with h | h <;> simp [c_deletexml_edit, h]
  have hb : c_deletexml_body env d xpath none
      = some (0, some ((env.xmlDocDumpMemory { doc0 with encoding := some "UTF-8" }).getD d),
          some (r, { doc := { doc0 with encoding := some "UTF-8" }, loose := [], freed := [] })) := by
    unfold c_deletexml_body
    simp only [hparse, hctx, heval, hed, dumpResult]
    cases env.xmlDocDumpMemory { doc0 with encoding := some "UTF-8" } <;> simp
  have h1 : c_deletexml env d xpath none
      = some (0, some ((env.xmlDocDumpMemory { doc0 with encoding := some "UTF-8" }).getD d)) := by
    have hx := xmlXPathFreeObject_of_nothing_freed r
      { doc := { doc0 with encoding := some "UTF-8" }, loose := [], freed := [] } rfl
    unfold c_deletexml
    simp only [hb, hx]
  refine ⟨{ doc0 with encoding := some "UTF-8" }, rfl, hprune _, h1, ?_⟩
  simp [deletexml, htext, h1, wrapResult]

/-- The theorem at `<root><a/><b/></root>`, path `//nonexistent`. -/
theorem delete_zero_matches_unchanged_witness :
    ∃ doc1 : xmlDoc,
      doc1.children = .elem 1 "root" (.elem 2 "a" .null (.elem 3 "b" .null .null)) .null ∧
      deletexml toyEnv "<root><a/><b/></root>" "//nonexistent"
        = some (toyEnv.xmlparse ((toyEnv.xmlDocDumpMemory doc1).getD "<root><a/><b/></root>")
            .XMLOPTION_CONTENT) :=
  have h := delete_zero_matches_unchanged toyEnv "<root><a/><b/></root>" "//nonexistent"
    ⟨.elem 1 "root" (.elem 2 "a" .null (.elem 3 "b" .null .null)) .null, none⟩
    ⟨.XPATH_NODESET, some []⟩ rfl rfl rfl rfl (Or.inr rfl)
  h.elim fun doc1 hd => ⟨doc1, hd.1, hd.2.2.2⟩

/-! ## Append: a fragment that does not parse -/

/-- C7, as stated, fails: on `<root><item/></root>` with path `/root` (one match)
and the fragment text `junk`, which the parser rejects, `c_appendchildxml`
returns the success code 0 with the serialized, unmodified document. -/
theorem append_bad_fragment_reports_success :
    toyEnv.xmlParseDoc "junk" = none ∧
    c_appendchildxml toyEnv "<root><item/></root>" "/root" "junk" none
      = some (0, some "<?xml version=\"1.0\" encoding=\"UTF-8\"?>\n<root><item/></root>\n") ∧
    ¬ ∃ out, c_appendchildxml toyEnv "<root><item/></root>" "/root" "junk" none
      = some (-1, out) := by
  refine ⟨rfl, rfl, ?_⟩
  rintro ⟨out, h⟩
  have h0 : c_appendchildxml toyEnv "<root><item/></root>" "/root" "junk" none
      = some (0, some "<?xml version=\"1.0\" encoding=\"UTF-8\"?>\n<root><item/></root>\n") := rfl
  rw [h0] at h
  simp at h

/-- C7 amended: when the path matches at least one node and the fragment text
does not parse, no matched node is modified: `c_appendchildxml` serializes the
parsed input document as it is (encoding label UTF-8) and returns the code 0. -/
theorem append_bad_fragment_no_change (env : Env) (d xpath f : String) (doc0 : xmlDoc)
    (r : xmlXPathObject) (nodeTab : List Nat)
    (hparse : env.xmlParseDoc d = some doc0)
    (hctx : env.xmlXPathNewContext { doc0 with encoding := some "UTF-8" } = true)
    (heval : env.xmlXPathEvalExpression xpath { doc0 with encoding := some "UTF-8" } = some r)
    (hset : r.nodesetval = some nodeTab)
    (hmatch : 1 ≤ nodeTab.length)
    (hfrag : env.xmlParseDoc f = none) :
    c_appendchildxml_edit env { doc0 with encoding := some "UTF-8" } nodeTab f
      = some { doc0 with encoding := some "UTF-8" } ∧
    c_appendchildxml env d xpath f none
      = some (0, some ((env.xmlDocDumpMemory { doc0 with encoding := some "UTF-8" }).getD d)) := by
  have hed : c_appendchildxml_edit env { doc0 with encoding := some "UTF-8" } nodeTab f
      = some { doc0 with encoding := some "UTF-8" } := by
    simp [c_appendchildxml_edit, hfrag]
  refine ⟨hed, ?_⟩
  have hl : ¬ nodeTab.length = 0 := by omega
  unfold c_appendchildxml
  simp only [hparse, hctx, heval, hset, hl, hed, dumpResult]
  cases env.xmlDocDumpMemory { doc0 with encoding := some "UTF-8" } <;> simp

/-- The amended statement at `<root><item/></root>`, path `/root`, fragment `junk`. -/
theorem append_bad_fragment_no_change_witness :
    c_appendchildxml toyEnv "<root><item/></root>" "/root" "junk" none
      = some (0, some ((toyEnv.xmlDocDumpMemory
          ⟨.elem 1 "root" (.elem 2 "item" .null .null) .null, some "UTF-8"⟩).getD
            "<root><item/></root>")) :=
  (append_bad_fragment_no_change toyEnv "<root><item/></root>" "/root" "junk"
    ⟨.elem 1 "root" (.elem 2 "item" .null .null) .null, none⟩
    ⟨.XPATH_NODESET, some [1]⟩ [1] rfl rfl rfl rfl (by decide) rfl).2

/-! ## A path the evaluator rejects -/

/-- C8, as stated, fails for append and delete: with the expression `bad[`, which
the evaluator rejects, `appendchildxml` and `deletexml` return the input
document as an ordinary result; no error is raised. -/
theorem invalid_path_returns_document :
    toyEnv.xmlXPathEvalExpression "bad["
      ⟨.elem 1 "root" (.elem 2 "item" .null .null) .null, some "UTF-8"⟩ = none ∧
    appendchildxml toyEnv "<root><item/></root>" "bad[" "<child/>"
      = some (.ok "<root><item/></root>") ∧
    deletexml toyEnv "<root><item/></root>" "bad[" = some (.ok "<root><item/></root>") :=
  ⟨rfl, rfl, rfl⟩

/-- C8 amended: when the evaluator rejects the path (returns NULL), `getarrayxml`
raises the error "XPath evaluation failed"; `c_appendchildxml` and `c_deletexml`
return the code -1 without a result text, and the SQL functions `appendchildxml`
and `deletexml` return their input document unchanged as an ordinary result. -/
theorem invalid_path_outcomes (env : Env) (d xpath f : String) (doc0 docm : xmlDoc)
    (htext : env.xmltotext_with_xmloption d .XMLOPTION_DOCUMENT = .ok d)
    (htextf : env.xmltotext_with_xmloption f .XMLOPTION_CONTENT = .ok f)
    (hparse : env.xmlParseDoc d = some doc0)
    (hparsem : env.xmlParseMemory d = some docm)
    (hctxm : env.xmlXPathNewContext docm = true)
    (heval : env.xmlXPathEvalExpression xpath { doc0 with encoding := some "UTF-8" } = none)
    (hevalm : env.xmlXPathEvalExpression xpath docm = none) :
    getarrayxml env (some d) (some xpath) = some (.error "XPath evaluation failed") ∧
    c_appendchildxml env d xpath f none = some (-1, none) ∧
    c_deletexml env d xpath none = some (-1, none) ∧
    appendchildxml env d xpath f = some (.ok d) ∧
    deletexml env d xpath = some (.ok d) := by
  have ha : c_appendchildxml env d xpath f none = some (-1, none) := by
    unfold c_appendchildxml
    simp [hparse, heval]
  have hd : c_deletexml env d xpath none = some (-1, none) := by
    simp [c_deletexml, c_deletexml_body, hparse, heval]
  refine ⟨?_, ha, hd, ?_, ?_⟩
  · simp [getarrayxml, hparsem, hctxm, hevalm]
  · simp [appendchildxml, htext, htextf, ha, wrapResult]
  · simp [deletexml, htext, hd, wrapResult]

/-- The amended statement at `<root><item/></root>` with the expression `bad[`. -/
theorem invalid_path_outcomes_witness :
    getarrayxml toyEnv (some "<root><item/></root>") (some "bad[")
      = some (.error "XPath evaluation failed") ∧
    appendchildxml toyEnv "<root><item/></root>" "bad[" "<child/>"
      = some (.ok "<root><item/></root>") :=
  have h := invalid_path_outcomes toyEnv "<root><item/></root>" "bad[" "<child/>"
    ⟨.elem 1 "root" (.elem 2 "item" .null .null) .null, none⟩
    ⟨.elem 1 "root" (.elem 2 "item" .null .null) .null, none⟩ rfl rfl rfl rfl rfl rfl rfl
  ⟨h.1, h.2.2.2.1⟩

/-! ## Collect -/

/-- Unlinking an address that is not in the chain changes nothing. -/
theorem unlinkAt_of_not_mem (a : Nat) :
    ∀ t : xmlNode, a ∉ addrs t → unlinkAt a t = t := by
  intro t
  induction t with
  | null => intro _; rfl
  | node ty b n c s ihc ihs =>
    intro h
    simp only [addrs, List.mem_cons, List.mem_append, not_or] at h
    have hb : ¬ b = a := fun e => h.1 e.symm
    simp [unlinkAt, hb, ihc h.2.1, ihs h.2.2]

/-- Dereferencing an address that is not in the chain gives nothing. -/
theorem findNode_of_not_mem (a : Nat) :
    ∀ t : xmlNode, a ∉ addrs t → findNode a t = none := by
  intro t
  induction t with
  | null => intro _; rfl
  | node ty b n c s ihc ihs =>
    intro h
    simp only [addrs, List.mem_cons, List.mem_append, not_or] at h
    have hb : ¬ b = a := fun e => h.1 e.symm
    simp [findNode, hb, ihc h.2.1, ihs h.2.2]

/-- A dereferenced address is an address of the chain. -/
theorem mem_addrs_of_findNode (a : Nat) (t n : xmlNode) (h : findNode a t = some n) :
    a ∈ addrs t := by
  by_contra hn
  rw [findNode_of_not_mem a t hn] at h
  exact Option.noConfusion h

/-- Where a node sits in document order: its own block of addresses (the node,
then everything below it) is contiguous, and unlinking the node removes exactly
that block. -/
theorem unlinkAt_decomp (a : Nat) :
    ∀ t : xmlNode, (addrs t).Nodup → a ∈ addrs t →
      ∃ n sub pre post, findNode a t = some n ∧ addrs (alone n) = a :: sub ∧
        addrs t = pre ++ (a :: sub) ++ post ∧ addrs (unlinkAt a t) = pre ++ post := by
  intro t
  induction t with
  | null => intro _ h; simp [addrs] at h
  | node ty b nm c s ihc ihs =>
    intro hnd hmem
    by_cases hb : b = a
    · subst hb
      exact ⟨.node ty b nm c s, addrs c, [], addrs s, by simp [findNode], by simp [alone, addrs],
        by simp [addrs], by simp [unlinkAt]⟩
    · simp only [addrs, List.nodup_cons, List.nodup_append, List.mem_append, not_or] at hnd
      obtain ⟨⟨hbc, hbs⟩, hndc, hnds, hdisj⟩ := hnd
      simp only [addrs, List.mem_cons, List.mem_append] at hmem
      rcases hmem with h | h | h
      · exact absurd h.symm hb
      · obtain ⟨n, sub, pre, post, hf, ha, hdec, hun⟩ := ihc hndc h
        have hs : a ∉ addrs s := fun h2 => hdisj h h2
        refine ⟨n, sub, b :: pre, post ++ addrs s, ?_, ha, ?_, ?_⟩
        · simp [findNode, hb, hf]
        · simp [addrs, hdec]
        · simp [unlinkAt, hb, addrs, hun, unlinkAt_of_not_mem a s hs]
      · obtain ⟨n, sub, pre, post, hf, ha, hdec, hun⟩ := ihs hnds h
        have hc : a ∉ addrs c := fun h2 => hdisj h2 h
        refine ⟨n, sub, b :: (addrs c ++ pre), post, ?_, ha, ?_, ?_⟩
        · simp [findNode, hb, hf, findNode_of_not_mem a c hc]
        · simp [addrs, hdec]
        · simp [unlinkAt, hb, addrs, hun, unlinkAt_of_not_mem a c hc]

/-- Pruning only looks at the matched addresses that are in the chain. -/
theorem prune_congr (M N : List Nat) :
    ∀ t : xmlNode, (∀ x ∈ addrs t, x ∈ M ↔ x ∈ N) → prune M t = prune N t := by
  intro t
  induction t with
  | null => intro _; rfl
  | node ty b n c s ihc ihs =>
    intro h
    have hc := ihc (fun x hx => h x (by simp [addrs, hx]))
    have hs := ihs (fun x hx => h x (by simp [addrs, hx]))
    have hb := h b (by simp [addrs])
    by_cases hbm : b ∈ M
    · simp [prune, hbm, hb.1 hbm, hs]
    · have hbn : b ∉ N := fun e => hbm (hb.2 e)
      simp [prune, hbm, hbn, hc, hs]

/-- Pruning with no match changes nothing. -/
theorem prune_nil : ∀ t : xmlNode, prune [] t = t := by
  intro t
  induction t with
  | null => rfl
  | node ty a n c s ihc ihs => simp [prune, ihc, ihs]

/-- Unlinking one node and pruning the rest is pruning all of them. -/
theorem prune_unlinkAt (a : Nat) (M : List Nat) :
    ∀ t : xmlNode, (addrs t).Nodup → prune M (unlinkAt a t) = prune (a :: M) t := by
  intro t
  induction t with
  | null => intro _; rfl
  | node ty b n c s ihc ihs =>
    intro hnd
    simp only [addrs, List.nodup_cons, List.nodup_append, List.mem_append, not_or] at hnd
    obtain ⟨⟨hbc, hbs⟩, hndc, hnds, _⟩ := hnd
    by_cases hb : b = a
    · subst hb
      simp only [unlinkAt, if_true, prune, List.mem_cons, true_or]
      apply prune_congr
      intro x hx
      have : x ≠ b := fun e => hbs (e ▸ hx)
      simp [this]
    · have hba : ¬ b = a := hb
      by_cases hbm : b ∈ M
      · simp [unlinkAt, hb, prune, hbm, ihs hnds]
      · simp [unlinkAt, hb, prune, hbm, ihc hndc, ihs hnds]

/-- A list that ends with `a` and sits inside `pre ++ a :: rest`, where `a`
occurs once, sits with its part before `a` inside `pre`. -/
theorem sublist_before (a : Nat) (l pre rest : List Nat)
    (h : (l ++ [a]).Sublist (pre ++ a :: rest)) (ha : a ∉ rest) : l.Sublist pre := by
  have h2 := h.reverse
  simp only [List.reverse_append, List.reverse_cons, List.reverse_nil, List.nil_append,
    List.singleton_append, List.append_assoc] at h2
  -- h2 : a :: l.reverse <+ rest.reverse ++ ([a] ++ pre.reverse)
  have key : ∀ (r : List Nat), a ∉ r → (a :: l.reverse).Sublist (r ++ a :: pre.reverse) →
      l.reverse.Sublist pre.reverse := by
    intro r
    induction r with
    | nil =>
      intro _ hs
      exact (List.cons_sublist_cons.1 hs)
    | cons x r ih =>
      intro hx hs
      simp only [List.mem_cons, not_or] at hx
      cases hs with
      | cons _ hs => exact ih hx.2 hs
      | cons₂ _ hs => exact absurd rfl hx.1
  have := key rest.reverse (by simpa using ha) (by simpa using h2)
  simpa using this.reverse

/-! ## Delete: the loop -/

/-- One iteration on a node that is in the document and not freed: the node's
block goes from the document to the freed addresses. -/
theorem delete_step (a : Nat) (h : Heap) (hloose : h.loose = [])
    (hnd : (addrs h.doc.children).Nodup) (hmem : a ∈ addrs h.doc.children)
    (hfree : a ∉ h.freed) :
    ∃ sub pre post, addrs h.doc.children = pre ++ (a :: sub) ++ post ∧
      (xmlUnlinkNode a h).bind (xmlFreeNode a)
        = some { doc := { h.doc with children := unlinkAt a h.doc.children },
                 loose := [], freed := h.freed ++ (a :: sub) } ∧
      addrs (unlinkAt a h.doc.children) = pre ++ post := by
  obtain ⟨n, sub, pre, post, hf, ha, hdec, hun⟩ := unlinkAt_decomp a h.doc.children hnd hmem
  refine ⟨sub, pre, post, hdec, ?_, hun⟩
  simp [xmlUnlinkNode, xmlFreeNode, hfree, hf, hloose, ha]

/-- The loop run on two tables in a row. -/
theorem c_deletexml_loop_append :
    ∀ (xs ys : List Nat) (st : Heap × Nat),
      c_deletexml_loop (xs ++ ys) st = (c_deletexml_loop xs st).bind (c_deletexml_loop ys) := by
  intro xs
  induction xs with
  | nil => intro ys st; rfl
  | cons a xs ih =>
    intro ys st
    obtain ⟨h, n⟩ := st
    simp only [List.cons_append, c_deletexml_loop]
    by_cases ha : a ≠ NULL
    · rw [if_pos ha, if_pos ha]
      cases hb : (xmlUnlinkNode a h).bind (xmlFreeNode a) with
      | none => rfl
      | some h2 => exact ih ys (h2, n + 1)
    · rw [if_neg ha, if_neg ha]
      exact ih ys (h, n)

/-- An iteration that goes through found its node in the document, not freed. -/
theorem delete_step_present (a : Nat) (h : Heap) (n : Nat) (st : Heap × Nat)
    (ha : a ≠ NULL) (hrun : c_deletexml_loop [a] (h, n) = some st) :
    a ∈ addrs h.doc.children ∧ a ∉ h.freed := by
  simp only [c_deletexml_loop, ha, ne_eq, not_false_eq_true, if_true] at hrun
  cases hu : xmlUnlinkNode a h with
  | none => simp [hu] at hrun
  | some h1 =>
    clear hrun
    unfold xmlUnlinkNode at hu
    by_cases hf : a ∈ h.freed
    · simp [hf] at hu
    · refine ⟨?_, hf⟩
      cases hfn : findNode a h.doc.children with
      | none => simp [hf, hfn] at hu
      | some m => exact mem_addrs_of_findNode a _ m hfn

/-- The loop over a table given last match first, when the table read first to
last is in document order: every iteration goes through, the document ends as
the pruned document, and exactly the removed addresses are freed. -/
theorem c_deletexml_loop_spec :
    ∀ (xs : List Nat) (h : Heap) (n : Nat),
      h.loose = [] → (addrs h.doc.children).Nodup → NULL ∉ addrs h.doc.children →
      xs.reverse.Sublist (addrs h.doc.children) →
      (∀ x ∈ addrs h.doc.children, x ∉ h.freed) → h.freed.Nodup →
      ∃ h1, c_deletexml_loop xs (h, n) = some (h1, n + xs.length) ∧
        h1.doc.children = prune xs h.doc.children ∧ h1.doc.encoding = h.doc.encoding ∧
        h1.loose = [] ∧ h1.freed.Nodup ∧
        (∀ x ∈ xs, x ∈ h1.freed) ∧ (∀ x ∈ h.freed, x ∈ h1.freed) ∧
        (∀ x ∈ h1.freed, x ∈ h.freed ∨ x ∈ addrs h.doc.children) := by
  intro xs
  induction xs with
  | nil =>
    intro h n hl _ _ _ _ hfn
    refine ⟨h, rfl, ?_, rfl, hl, hfn, by simp, fun x hx => hx, fun x hx => Or.inl hx⟩
    exact (prune_nil _).symm
  | cons a xs ih =>
    intro h n hl hnd hnull hsub hdisj hfn
    have hsub2 : (xs.reverse ++ [a]).Sublist (addrs h.doc.children) := by
      simpa using hsub
    have hmem : a ∈ addrs h.doc.children := hsub2.subset (by simp)
    have hane : a ≠ NULL := fun e => hnull (e ▸ hmem)
    obtain ⟨sub, pre, post, hdec, hstep, hun⟩ := delete_step a h hl hnd hmem (hdisj a hmem)
    -- facts about the three parts of the address list
    have hnd2 : (pre ++ (a :: sub) ++ post).Nodup := hdec ▸ hnd
    have hpp : (pre ++ post).Sublist (pre ++ (a :: sub) ++ post) := by
      simp only [List.append_assoc]
      exact List.Sublist.append (List.Sublist.refl _) (List.sublist_append_right _ _)
    have hblock : ∀ x ∈ a :: sub, x ∉ pre ++ post := by
      intro x hx hxp
      have hnd3 := hnd2
      simp only [List.append_assoc] at hnd3
      rw [List.nodup_append] at hnd3
      obtain ⟨_, hnd4, hd1⟩ := hnd3
      rw [List.nodup_append] at hnd4
      obtain ⟨_, _, hd2⟩ := hnd4
      rcases List.mem_append.1 hxp with h1 | h1
      · exact hd1 h1 (List.mem_append_left _ hx)
      · exact hd2 hx h1
    have harest : a ∉ sub ++ post := by
      have hnd3 := hnd2
      simp only [List.append_assoc, List.cons_append] at hnd3
      rw [List.nodup_append] at hnd3
      exact (List.nodup_cons.1 hnd3.2.1).1
    have hxs : xs.reverse.Sublist (pre ++ post) := by
      have h3 : (xs.reverse ++ [a]).Sublist (pre ++ a :: (sub ++ post)) := by
        have := hsub2
        rw [hdec] at this
        simpa using this
      exact (sublist_before a xs.reverse pre (sub ++ post) h3 harest).trans
        (List.sublist_append_left _ _)
    -- the state after the iteration
    let h2 : Heap := { doc := { h.doc with children := unlinkAt a h.doc.children },
                       loose := [], freed := h.freed ++ (a :: sub) }
    have hfn2 : h2.freed.Nodup := by
      show (h.freed ++ (a :: sub)).Nodup
      rw [List.nodup_append]
      refine ⟨hfn, ?_, ?_⟩
      · have hnd3 := hnd2
        simp only [List.append_assoc] at hnd3
        rw [List.nodup_append] at hnd3
        rw [List.nodup_append] at hnd3
        exact hnd3.2.1.1
      · intro x hx1 hx2
        exact hdisj x (by rw [hdec]; simp only [List.append_assoc]
                          exact List.mem_append_right _ (List.mem_append_left _ hx2)) hx1
    obtain ⟨h3, hrun, hch, henc, hl3, hfn3, hall, hmono, hfrom⟩ := ih h2 (n + 1) rfl
      (by show (addrs (unlinkAt a h.doc.children)).Nodup
          rw [hun]; exact hnd2.sublist hpp)
      (by show NULL ∉ addrs (unlinkAt a h.doc.children)
          rw [hun]; intro e; exact hnull (hdec ▸ hpp.subset e))
      (by show xs.reverse.Sublist (addrs (unlinkAt a h.doc.children))
          rw [hun]; exact hxs)
      (by show ∀ x ∈ addrs (unlinkAt a h.doc.children), x ∉ h.freed ++ (a :: sub)
          rw [hun]
          intro x hx hx2
          rcases List.mem_append.1 hx2 with h4 | h4
          · exact hdisj x (hdec ▸ hpp.subset hx) h4
          · exact hblock x h4 hx)
      hfn2
    refine ⟨h3, ?_, ?_, henc, hl3, hfn3, ?_, ?_, ?_⟩
    · simp only [c_deletexml_loop, hane, ne_eq, not_false_eq_true, if_true, hstep]
      rw [hrun]
      simp [Nat.add_assoc, Nat.add_comm 1]
    · rw [hch]
      exact prune_unlinkAt a xs h.doc.children hnd
    · intro x hx
      rcases List.mem_cons.1 hx with e | e
      · subst e
        have hin : x ∈ h2.freed := by
          show x ∈ h.freed ++ (x :: sub)
          simp
        exact hmono x hin
      · exact hall x e
    · intro x hx
      exact hmono x (by show x ∈ h.freed ++ (a :: sub); exact List.mem_append_left _ hx)
    · intro x hx
      rcases hfrom x hx with h4 | h4
      · rcases List.mem_append.1 h4 with h5 | h5
        · exact Or.inl h5
        · right; rw [hdec]; simp only [List.append_assoc]
          exact List.mem_append_right _ (List.mem_append_left _ h5)
      · right
        have : x ∈ pre ++ post := hun ▸ h4
        exact hdec ▸ hpp.subset this

/-- C10: for a match set listed in document order over a well-formed document
(nested matches included), the loop of `c_deletexml`, which visits the matches
from last to first, never touches a freed or missing node: it runs to the end
with `nodes_deleted` equal to the number of matches, every matched node has been
freed, no address has been freed twice, only nodes of the document are freed,
and the document is left as the input without the matched subtrees.  Moreover,
at the moment a match is processed, that is once the matches after it are done,
it is still linked in the document and not freed. -/
theorem reverse_order_deletion_safe (doc : xmlDoc) (nodeTab : List Nat)
    (hwf : WellFormed doc) (hord : InDocOrder nodeTab doc) :
    (∃ h, c_deletexml_loop nodeTab.reverse ({ doc := doc, loose := [], freed := [] }, 0)
        = some (h, nodeTab.length) ∧
      h.loose = [] ∧ h.freed.Nodup ∧ (∀ a ∈ nodeTab, a ∈ h.freed) ∧
      (∀ x ∈ h.freed, x ∈ addrs doc.children) ∧
      h.doc.children = prune nodeTab doc.children) ∧
    (∀ pre a post, nodeTab = pre ++ a :: post →
      ∃ hk, c_deletexml_loop post.reverse ({ doc := doc, loose := [], freed := [] }, 0)
          = some (hk, post.length) ∧
        a ∈ addrs hk.doc.children ∧ a ∉ hk.freed) := by
  have run : ∀ tab : List Nat, tab.Sublist (addrs doc.children) →
      ∃ h, c_deletexml_loop tab.reverse ({ doc := doc, loose := [], freed := [] }, 0)
          = some (h, tab.length) ∧
        h.loose = [] ∧ h.freed.Nodup ∧ (∀ a ∈ tab, a ∈ h.freed) ∧
        (∀ x ∈ h.freed, x ∈ addrs doc.children) ∧
        h.doc.children = prune tab doc.children := by
    intro tab hsub
    obtain ⟨h1, hrun, hch, _, hl, hfn, hall, _, hfrom⟩ :=
      c_deletexml_loop_spec tab.reverse { doc := doc, loose := [], freed := [] } 0 rfl
        hwf.1 hwf.2 (by simpa using hsub) (by simp) (by simp)
    refine ⟨h1, by simpa using hrun, hl, hfn, fun a ha => hall a (by simpa using ha), ?_, ?_⟩
    · intro x hx
      rcases hfrom x hx with h | h
      · simp at h
      · exact h
    · rw [hch]
      exact prune_congr _ _ _ (fun x _ => by simp)
  refine ⟨run nodeTab hord, ?_⟩
  intro pre a post hsplit
  have hpost : post.Sublist (addrs doc.children) :=
    (List.sublist_append_right pre post |>.trans
      (List.Sublist.append (List.Sublist.refl pre) (List.sublist_cons_self a post))).trans
      (hsplit ▸ hord)
  have hapost : (a :: post).Sublist (addrs doc.children) :=
    (List.sublist_append_right pre (a :: post)).trans (hsplit ▸ hord)
  obtain ⟨hk, hrunk, _⟩ := run post hpost
  obtain ⟨hk2, hrunk2, _⟩ := run (a :: post) hapost
  refine ⟨hk, hrunk, ?_⟩
  have ha : a ≠ NULL := fun e => hwf.2 (e ▸ hapost.subset (List.mem_cons_self _ _))
  rw [List.reverse_cons, c_deletexml_loop_append, hrunk] at hrunk2
  exact delete_step_present a hk post.length _ ha hrunk2

/-- The theorem at `<a><b><c/></b><d/></a>` with the nested matches `b`, `c` and
the match `d`: three nodes deleted, `a` is left alone, and when `b` is processed
it is still in the document. -/
theorem reverse_order_deletion_safe_witness :
    (∃ h, c_deletexml_loop [2, 3, 4].reverse
        ({ doc := ⟨.elem 1 "a" (.elem 2 "b" (.elem 3 "c" .null .null)
              (.elem 4 "d" .null .null)) .null, none⟩, loose := [], freed := [] }, 0)
        = some (h, 3) ∧ h.doc.children = .elem 1 "a" .null .null) ∧
    (∃ hk, c_deletexml_loop [3, 4].reverse
        ({ doc := ⟨.elem 1 "a" (.elem 2 "b" (.elem 3 "c" .null .null)
              (.elem 4 "d" .null .null)) .null, none⟩, loose := [], freed := [] }, 0)
        = some (hk, 2) ∧ 2 ∈ addrs hk.doc.children ∧ 2 ∉ hk.freed) :=
  have h := reverse_order_deletion_safe
    ⟨.elem 1 "a" (.elem 2 "b" (.elem 3 "c" .null .null) (.elem 4 "d" .null .null)) .null, none⟩
    [2, 3, 4] (by decide) (by decide)
  ⟨h.1.elim fun hh hp => ⟨hh, hp.1, hp.2.2.2.2.2⟩, h.2 [] 2 [3, 4] rfl⟩

/-- Visiting nested matches first to last instead is undefined: on `<a><b/></a>`
with the matches `a`, `b`, freeing `a` frees `b`, which is then touched. -/
theorem forward_order_deletion_undefined :
    c_deletexml_loop [1, 2]
      ({ doc := ⟨.elem 1 "a" (.elem 2 "b" .null .null) .null, none⟩,
         loose := [], freed := [] }, 0) = none := by
  decide


/-! ## Delete: the whole operation -/

/-- The body of `c_deletexml` on a well-formed document whose matches are listed
in document order (`tab`, empty for a NULL node set): the return code is 0, the
text stored in `*result_xml` is the serialization of the input document from
which every matched node has been removed with the whole subtree under it
(`prune`), every other node staying in its place and order, and every matched
node has been freed when the cleanup starts. -/
theorem c_deletexml_body_spec (env : Env) (d xpath : String) (doc0 : xmlDoc)
    (r : xmlXPathObject) (tab : List Nat)
    (hparse : env.xmlParseDoc d = some doc0)
    (hwf : WellFormed doc0)
    (hctx : env.xmlXPathNewContext { doc0 with encoding := some "UTF-8" } = true)
    (heval : env.xmlXPathEvalExpression xpath { doc0 with encoding := some "UTF-8" } = some r)
    (hset : r.nodesetval.getD [] = tab)
    (hord : InDocOrder tab doc0) :
    ∃ h : Heap,
      c_deletexml_body env d xpath none
        = some (0, some ((env.xmlDocDumpMemory
            { children := prune tab doc0.children, encoding := some "UTF-8" }).getD d),
            some (r, h)) ∧
      h.doc = { children := prune tab doc0.children, encoding := some "UTF-8" } ∧
      (∀ a ∈ tab, a ∈ h.freed) ∧ (tab = [] → h.freed = []) := by
  obtain ⟨h1, hrun, hch, henc, _, _, hall, _, _⟩ :=
    c_deletexml_loop_spec tab.reverse
      { doc := { doc0 with encoding := some "UTF-8" }, loose := [], freed := [] } 0 rfl
      hwf.1 hwf.2 (by simpa using hord) (by simp) (by simp)
  have hdoc : h1.doc = { children := prune tab doc0.children, encoding := some "UTF-8" } := by
    have e1 : h1.doc.children = prune tab doc0.children := by
      rw [hch]
      exact prune_congr _ _ _ (fun x _ => by simp)
    have e2 : h1.doc.encoding = some "UTF-8" := henc
    cases hd : h1.doc with
    | mk ch en =>
      rw [hd] at e1 e2
      simp only at e1 e2
      rw [e1, e2]
  have hempty : tab = [] →
      h1 = (⟨{ doc0 with encoding := some "UTF-8" }, [], []⟩ : Heap) := by
    intro ht
    subst ht
    simp only [List.reverse_nil, c_deletexml_loop, Option.some.injEq, Prod.mk.injEq] at hrun
    exact hrun.1.symm
  have hed : ∃ k, c_deletexml_edit { doc0 with encoding := some "UTF-8" } r = some (h1, k) := by
    unfold c_deletexml_edit
    cases hn : r.nodesetval with
    | none =>
      have ht : tab = [] := by rw [← hset, hn]; rfl
      exact ⟨0, by rw [hempty ht]⟩
    | some t =>
      have ht : tab = t := by rw [← hset, hn]; rfl
      subst ht
      by_cases hl : tab.length > 0
      · exact ⟨0 + tab.reverse.length, by simp only [hl, if_true, hrun]⟩
      · have ht : tab = [] := by
          cases tab with
          | nil => rfl
          | cons a t => simp at hl
        refine ⟨0, ?_⟩
        simp only [hl, if_false]
        rw [hempty ht]
  obtain ⟨k, hed⟩ := hed
  refine ⟨h1, ?_, hdoc, fun a ha => hall a (by simpa using ha), ?_⟩
  · unfold c_deletexml_body
    simp only [hparse, hctx, heval, hed, dumpResult, hdoc]
    cases env.xmlDocDumpMemory { children := prune tab doc0.children, encoding := some "UTF-8" }
      <;> simp
  · intro ht
    rw [hempty ht]

/-- Whenever the path matches a node, `c_deletexml` is undefined: the loop has
freed the matched nodes and left their pointers in the node table, and
`xmlXPathFreeObject` then looks at them. -/
theorem c_deletexml_undefined_of_match (env : Env) (d xpath : String) (doc0 : xmlDoc)
    (r : xmlXPathObject) (tab : List Nat)
    (htext : env.xmltotext_with_xmloption d .XMLOPTION_DOCUMENT = .ok d)
    (hparse : env.xmlParseDoc d = some doc0)
    (hwf : WellFormed doc0)
    (hctx : env.xmlXPathNewContext { doc0 with encoding := some "UTF-8" } = true)
    (heval : env.xmlXPathEvalExpression xpath { doc0 with encoding := some "UTF-8" } = some r)
    (htype : r.type = .XPATH_NODESET)
    (hset : r.nodesetval = some tab)
    (hmatch : 1 ≤ tab.length)
    (hord : InDocOrder tab doc0) :
    c_deletexml env d xpath none = none ∧ deletexml env d xpath = none := by
  obtain ⟨h, hb, _, hall, _⟩ :=
    c_deletexml_body_spec env d xpath doc0 r tab hparse hwf hctx heval (by rw [hset]; rfl) hord
  have hfree : xmlXPathFreeObject r h = none := by
    cases tab with
    | nil => simp at hmatch
    | cons a rest =>
      have ha : a ∈ addrs doc0.children := hord.subset (List.mem_cons_self _ _)
      have hne : a ≠ NULL := fun e => hwf.2 (e ▸ ha)
      have hex : ∃ p ∈ a :: rest, p ≠ NULL ∧ p ∈ h.freed :=
        ⟨a, List.mem_cons_self _ _, hne, hall a (List.mem_cons_self _ _)⟩
      unfold xmlXPathFreeObject
      simp only [htype, if_true, hset]
      rw [if_pos hex]
  have hc : c_deletexml env d xpath none = none := by
    unfold c_deletexml
    simp only [hb, hfree]
  exact ⟨hc, by simp [deletexml, htext, hc]⟩

/-- C3, evaluated at `<root><a/><b/></root>` with the path `//a`: before the
cleanup the text stored in `*result_xml` is the document without `a`, as the
claim says, but `xmlXPathFreeObject` then looks at the freed node `a` still
listed in the node table, so that the call as a whole is undefined. -/
theorem delete_cleanup_reads_freed_node :
    c_deletexml_stored toyEnv "<root><a/><b/></root>" "//a"
      = some "<?xml version=\"1.0\" encoding=\"UTF-8\"?>\n<root><b/></root>\n" ∧
    c_deletexml toyEnv "<root><a/><b/></root>" "//a" none = none ∧
    deletexml toyEnv "<root><a/><b/></root>" "//a" = none :=
  ⟨rfl, rfl, rfl⟩


/-! ## Delete twice -/

/-- A name test lists its matches in document order. -/
theorem namedIn_sublist (names : List String) :
    ∀ t : xmlNode, (namedIn names t).Sublist (addrs t) := by
  intro t
  induction t with
  | null => exact List.Sublist.refl _
  | node ty a n c s ihc ihs =>
    simp only [namedIn, addrs]
    by_cases hp : ty = .XML_ELEMENT_NODE ∧ n ∈ names
    · rw [if_pos hp, List.singleton_append]
      exact (List.Sublist.append ihc ihs).cons₂ a
    · rw [if_neg hp, List.nil_append]
      exact (List.Sublist.append ihc ihs).cons a

/-- Once the matches of a name test are pruned, the name test matches nothing. -/
theorem namedIn_prune (names : List String) (M : List Nat) :
    ∀ t : xmlNode, (∀ x ∈ namedIn names t, x ∈ M) → namedIn names (prune M t) = [] := by
  intro t
  induction t with
  | null => intro _; rfl
  | node ty a n c s ihc ihs =>
    intro h
    have hc := ihc (fun x hx => h x (by simp [namedIn, hx]))
    have hs := ihs (fun x hx => h x (by simp [namedIn, hx]))
    by_cases ha : a ∈ M
    · simp [prune, ha, hs]
    · have hp : ¬ (ty = .XML_ELEMENT_NODE ∧ n ∈ names) := by
        intro hp
        exact ha (h a (by simp [namedIn, hp]))
      simp only [prune, ha, if_false, namedIn, if_neg hp, hc, hs, List.append_nil]

/-- Whether a name test matches nothing depends only on the shape of the tree. -/
theorem namedIn_shape_eq_nil (names : List String) :
    ∀ t : xmlNode, namedIn names (shape t) = [] ↔ namedIn names t = [] := by
  intro t
  induction t with
  | null => exact Iff.rfl
  | node ty a n c s ihc ihs =>
    simp only [shape, namedIn, List.append_eq_nil, ihc, ihs]
    by_cases hp : ty = .XML_ELEMENT_NODE ∧ n ∈ names
    · simp [hp]
    · simp [hp]

/-- C4, as stated, fails: on `<root><a/><b/></root>` with the path `/*/*[1]` (the
first child of the root element) the first call computes the document without
`a`; on that document the path matches `b`, and the second call computes the
document without `b`. -/
theorem delete_twice_differs :
    c_deletexml_stored toyEnv "<root><a/><b/></root>" "/*/*[1]"
      = some "<?xml version=\"1.0\" encoding=\"UTF-8\"?>\n<root><b/></root>\n" ∧
    toyEnv.xmlXPathEvalExpression "/*/*[1]"
        ⟨.elem 1 "root" (.elem 2 "b" .null .null) .null, some "UTF-8"⟩
      = some ⟨.XPATH_NODESET, some [2]⟩ ∧
    c_deletexml_stored toyEnv
        "<?xml version=\"1.0\" encoding=\"UTF-8\"?>\n<root><b/></root>\n" "/*/*[1]"
      = some "<?xml version=\"1.0\" encoding=\"UTF-8\"?>\n<root/>\n" ∧
    c_deletexml_stored toyEnv
        "<?xml version=\"1.0\" encoding=\"UTF-8\"?>\n<root><b/></root>\n" "/*/*[1]"
      ≠ c_deletexml_stored toyEnv "<root><a/><b/></root>" "/*/*[1]" := by
  refine ⟨rfl, rfl, rfl, ?_⟩
  decide

/-- C4 amended: let the path be a name test (the evaluator returns, in document
order, the elements whose name is in `names`), let `t1` be the text the first
call computes from a well-formed `d`, and let the parser read `t1` back as the
tree the serializer wrote, which the serializer writes as `t1` again.  Then on
`t1` the path matches nothing, the second call computes `t1` again, completes
with code 0, and `deletexml` returns `t1`. -/
theorem delete_twice_name_test (env : Env) (d xpath t1 : String) (names : List String)
    (doc0 doc1 : xmlDoc)
    (hname : ∀ doc : xmlDoc, env.xmlXPathEvalExpression xpath doc
      = some ⟨.XPATH_NODESET, some (namedIn names doc.children)⟩)
    (hparse : env.xmlParseDoc d = some doc0)
    (hwf : WellFormed doc0)
    (hctx : env.xmlXPathNewContext { doc0 with encoding := some "UTF-8" } = true)
    (hdump : env.xmlDocDumpMemory
      { children := prune (namedIn names doc0.children) doc0.children,
        encoding := some "UTF-8" } = some t1)
    (htext1 : env.xmltotext_with_xmloption t1 .XMLOPTION_DOCUMENT = .ok t1)
    (hparse1 : env.xmlParseDoc t1 = some doc1)
    (hround : shape doc1.children
      = shape (prune (namedIn names doc0.children) doc0.children))
    (hctx1 : env.xmlXPathNewContext { doc1 with encoding := some "UTF-8" } = true)
    (hdump1 : env.xmlDocDumpMemory { doc1 with encoding := some "UTF-8" } = some t1)
    (hxp1 : env.xmlparse t1 .XMLOPTION_CONTENT = .ok t1) :
    c_deletexml_stored env d xpath = some t1 ∧
    namedIn names doc1.children = [] ∧
    c_deletexml_stored env t1 xpath = c_deletexml_stored env d xpath ∧
    c_deletexml env t1 xpath none = some (0, some t1) ∧
    deletexml env t1 xpath = some (.ok t1) := by
  -- the first call
  obtain ⟨h, hb, _, _, _⟩ :=
    c_deletexml_body_spec env d xpath doc0 _ (namedIn names doc0.children) hparse hwf hctx
      (hname _) rfl (namedIn_sublist names doc0.children)
  have hfirst : c_deletexml_stored env d xpath = some t1 := by
    unfold c_deletexml_stored
    simp only [hb, hdump, Option.getD_some]
  -- on the result the name test matches nothing
  have hnone : namedIn names doc1.children = [] := by
    rw [← namedIn_shape_eq_nil, hround, namedIn_shape_eq_nil]
    exact namedIn_prune names _ doc0.children (fun x hx => hx)
  -- the second call
  have hed : c_deletexml_edit { doc1 with encoding := some "UTF-8" }
      ⟨.XPATH_NODESET, some (namedIn names doc1.children)⟩
      = some ({ doc := { doc1 with encoding := some "UTF-8" }, loose := [], freed := [] }, 0) := by
    simp [c_deletexml_edit, hnone]
  have hb1 : c_deletexml_body env t1 xpath none
      = some (0, some t1, some (⟨.XPATH_NODESET, some (namedIn names doc1.children)⟩,
          { doc := { doc1 with encoding := some "UTF-8" }, loose := [], freed := [] })) := by
    unfold c_deletexml_body
    simp only [hparse1, hctx1, hname, hed, dumpResult, hdump1]
    simp
  have hsecond : c_deletexml_stored env t1 xpath = some t1 := by
    unfold c_deletexml_stored
    simp only [hb1]
  have hc : c_deletexml env t1 xpath none = some (0, some t1) := by
    have hx := xmlXPathFreeObject_of_nothing_freed
      ⟨.XPATH_NODESET, some (namedIn names doc1.children)⟩
      { doc := { doc1 with encoding := some "UTF-8" }, loose := [], freed := [] } rfl
    unfold c_deletexml
    simp only [hb1, hx]
  refine ⟨hfirst, hnone, by rw [hsecond, hfirst], hc, ?_⟩
  simp [deletexml, htext1, hc, wrapResult, hxp1]

/-- The amended statement at `<root><a/><b/></root>` with the name test `//a`:
the first call computes `<root><b/></root>`, on which `//a` matches nothing and
the second call returns the same text. -/
theorem delete_twice_name_test_witness :
    c_deletexml_stored toyEnv "<root><a/><b/></root>" "//a"
      = some "<?xml version=\"1.0\" encoding=\"UTF-8\"?>\n<root><b/></root>\n" ∧
    deletexml toyEnv "<?xml version=\"1.0\" encoding=\"UTF-8\"?>\n<root><b/></root>\n" "//a"
      = some (.ok "<?xml version=\"1.0\" encoding=\"UTF-8\"?>\n<root><b/></root>\n") :=
  have h := delete_twice_name_test toyEnv "<root><a/><b/></root>" "//a"
    "<?xml version=\"1.0\" encoding=\"UTF-8\"?>\n<root><b/></root>\n" ["a"]
    ⟨.elem 1 "root" (.elem 2 "a" .null (.elem 3 "b" .null .null)) .null, none⟩
    ⟨.elem 1 "root" (.elem 2 "b" .null .null) .null, some "UTF-8"⟩
    (fun _ => rfl) rfl (by decide) rfl rfl rfl rfl (by decide) rfl rfl rfl
  ⟨h.1, h.2.2.2.2⟩

/-! ## Append: the tree functions -/

/-- Addresses of a chain with one more node linked at its end. -/
theorem addrs_appendSibling (cur : xmlNode) :
    ∀ c : xmlNode, addrs (appendSibling c cur) = addrs c ++ addrs cur := by
  intro c
  induction c with
  | null => simp [appendSibling, addrs]
  | node ty a n c s _ ihs => simp [appendSibling, addrs, ihs]

/-- Shape of a chain with one more node linked at its end. -/
theorem shape_appendSibling (cur : xmlNode) :
    ∀ c : xmlNode, shape (appendSibling c cur) = appendSibling (shape c) (shape cur) := by
  intro c
  induction c with
  | null => simp [appendSibling]
  | node ty a n c s _ ihs => simp [appendSibling, shape, ihs]

/-- A copy placed elsewhere has the shape of the original. -/
theorem shape_shift (k : Nat) : ∀ t : xmlNode, shape (shift k t) = shape t := by
  intro t
  induction t with
  | null => rfl
  | node ty a n c s ihc ihs => simp [shift, shape, ihc, ihs]

/-- Every address of a copy placed at `k` is at least `k`. -/
theorem le_of_mem_addrs_shift (k : Nat) :
    ∀ (t : xmlNode) (x : Nat), x ∈ addrs (shift k t) → k ≤ x := by
  intro t
  induction t with
  | null => intro x h; simp [shift, addrs] at h
  | node ty a n c s ihc ihs =>
    intro x h
    simp only [shift, addrs, List.mem_cons, List.mem_append] at h
    rcases h with h | h | h
    · omega
    · exact ihc x h
    · exact ihs x h

/-- Grafting only looks at the matched addresses that are in the chain. -/
theorem graft_congr (M N : List Nat) (f : xmlNode) :
    ∀ t : xmlNode, (∀ x ∈ addrs t, x ∈ M ↔ x ∈ N) → graft M f t = graft N f t := by
  intro t
  induction t with
  | null => intro _; rfl
  | node ty b n c s ihc ihs =>
    intro h
    have hc := ihc (fun x hx => h x (by simp [addrs, hx]))
    have hs := ihs (fun x hx => h x (by simp [addrs, hx]))
    have hb := h b (by simp [addrs])
    by_cases hbm : b ∈ M
    · simp [graft, hbm, hb.1 hbm, hc, hs]
    · have hbn : b ∉ N := fun e => hbm (hb.2 e)
      simp [graft, hbm, hbn, hc, hs]

/-- Grafting changes nothing in a chain that holds no matched node. -/
theorem graft_of_disjoint (M : List Nat) (f : xmlNode) :
    ∀ t : xmlNode, (∀ x ∈ addrs t, x ∉ M) → graft M f t = t := by
  intro t
  induction t with
  | null => intro _; rfl
  | node ty b n c s ihc ihs =>
    intro h
    have hc := ihc (fun x hx => h x (by simp [addrs, hx]))
    have hs := ihs (fun x hx => h x (by simp [addrs, hx]))
    have hb := h b (by simp [addrs])
    simp [graft, hb, hc, hs]

/-- Grafting goes through the linking of one more node at the end of a chain. -/
theorem graft_appendSibling (M : List Nat) (f cur : xmlNode) :
    ∀ c : xmlNode,
      graft M f (appendSibling c cur) = appendSibling (graft M f c) (graft M f cur) := by
  intro c
  induction c with
  | null => simp [appendSibling, graft]
  | node ty a n c s _ ihs =>
    by_cases ha : a ∈ M
    · simp [appendSibling, graft, ha, ihs]
    · simp [appendSibling, graft, ha, ihs]

/-- Adding a child does not change how often an address outside the new child
occurs. -/
theorem count_addrs_addChildAt (a b : Nat) (cur : xmlNode) (hb : b ∉ addrs cur) :
    ∀ t : xmlNode, (addrs (addChildAt a cur t)).count b = (addrs t).count b := by
  intro t
  induction t with
  | null => rfl
  | node ty x n c s ihc ihs =>
    by_cases hx : x = a
    · by_cases hty : ty = .XML_TEXT_NODE
      · simp [addChildAt, hx, hty]
      · simp [addChildAt, hx, hty, addrs, addrs_appendSibling, List.count_cons,
          List.count_append, List.count_eq_zero_of_not_mem hb]
    · simp [addChildAt, hx, addrs, List.count_cons, List.count_append, ihc, ihs]

/-- Text nodes of a chain with one more node linked at its end. -/
theorem textAddrs_appendSibling (cur : xmlNode) :
    ∀ c : xmlNode, textAddrs (appendSibling c cur) = textAddrs c ++ textAddrs cur := by
  intro c
  induction c with
  | null => simp [appendSibling, textAddrs]
  | node ty a n c s _ ihs => simp [appendSibling, textAddrs, ihs]

/-- A text node of a chain is a node of the chain. -/
theorem mem_addrs_of_mem_textAddrs :
    ∀ (t : xmlNode) (x : Nat), x ∈ textAddrs t → x ∈ addrs t := by
  intro t
  induction t with
  | null => intro x h; simp [textAddrs] at h
  | node ty a n c s ihc ihs =>
    intro x h
    simp only [textAddrs, List.mem_append] at h
    simp only [addrs, List.mem_cons, List.mem_append]
    rcases h with h | h | h
    · by_cases hty : ty = .XML_TEXT_NODE
      · simp [hty] at h
        exact Or.inl h
      · simp [hty] at h
    · exact Or.inr (Or.inl (ihc x h))
    · exact Or.inr (Or.inr (ihs x h))

/-- Adding a child makes no address outside the new child a text node. -/
theorem not_mem_textAddrs_addChildAt (a b : Nat) (cur : xmlNode) (hb : b ∉ textAddrs cur) :
    ∀ t : xmlNode, b ∉ textAddrs t → b ∉ textAddrs (addChildAt a cur t) := by
  intro t
  induction t with
  | null => intro h; exact h
  | node ty x n c s ihc ihs =>
    intro h
    simp only [textAddrs, List.mem_append, not_or] at h
    by_cases hx : x = a
    · by_cases hty : ty = .XML_TEXT_NODE
      · simp only [addChildAt, hx, hty, if_true, textAddrs, List.mem_append, not_or]
        simpa [hty, hx] using h
      · simp only [addChildAt, hx, hty, if_true, if_false, textAddrs, List.mem_append, not_or,
          textAddrs_appendSibling]
        simp only [hty, if_false] at h
        exact ⟨h.1, ⟨h.2.1, hb⟩, h.2.2⟩
    · simp only [addChildAt, hx, if_false, textAddrs, List.mem_append, not_or]
      exact ⟨h.1, ihc h.2.1, ihs h.2.2⟩

/-- Adding a copy of the fragment under `a` and then grafting under the nodes of
`M` gives the shape of grafting under `a` and the nodes of `M` at once. -/
theorem shape_graft_addChildAt (a : Nat) (M : List Nat) (f cur : xmlNode)
    (haM : a ∉ M) (hcur : ∀ x ∈ addrs cur, x ∉ M) (hshape : shape cur = shape f) :
    ∀ t : xmlNode, (addrs t).count a ≤ 1 → a ∉ textAddrs t →
      shape (graft M f (addChildAt a cur t)) = shape (graft (a :: M) f t) := by
  intro t
  induction t with
  | null => intro _ _; rfl
  | node ty b n c s ihc ihs =>
    intro hcount htext
    simp only [textAddrs, List.mem_append, not_or] at htext
    by_cases hb : b = a
    · subst hb
      have hty : ¬ ty = .XML_TEXT_NODE := by
        intro e
        simp [e] at htext
      simp only [addrs, List.count_cons_self, List.count_append] at hcount
      have hc0 : b ∉ addrs c := by
        intro h
        have := List.count_pos_iff.2 h
        omega
      have hs0 : b ∉ addrs s := by
        intro h
        have := List.count_pos_iff.2 h
        omega
      have e1 : graft (b :: M) f c = graft M f c :=
        graft_congr _ _ f c (fun x hx => by
          have : x ≠ b := fun e => hc0 (e ▸ hx)
          simp [this])
      have e2 : graft (b :: M) f s = graft M f s :=
        graft_congr _ _ f s (fun x hx => by
          have : x ≠ b := fun e => hs0 (e ▸ hx)
          simp [this])
      simp [addChildAt, hty, graft, haM, graft_appendSibling, graft_of_disjoint M f cur hcur,
        e1, e2, shape, shape_appendSibling, hshape]
    · have hne : b ≠ a := hb
      simp only [addrs, List.count_cons, List.count_append] at hcount
      have hcc : (addrs c).count a ≤ 1 := by omega
      have hcs : (addrs s).count a ≤ 1 := by omega
      by_cases hbm : b ∈ M
      · simp [addChildAt, hb, graft, hbm, shape, shape_appendSibling, ihc hcc htext.2.1,
          ihs hcs htext.2.2]
      · simp [addChildAt, hb, graft, hbm, shape, ihc hcc htext.2.1, ihs hcs htext.2.2]

/-- No address of a chain is above `maxAddr`. -/
theorem le_maxAddr : ∀ (t : xmlNode) (x : Nat), x ∈ addrs t → x ≤ maxAddr t := by
  intro t
  induction t with
  | null => intro x h; simp [addrs] at h
  | node ty a n c s ihc ihs =>
    intro x h
    simp only [addrs, List.mem_cons, List.mem_append] at h
    simp only [maxAddr]
    rcases h with h | h | h
    · omega
    · have := ihc x h; omega
    · have := ihs x h; omega

/-! ## Append: the loop and the whole operation -/

/-- The loop of `c_appendchildxml` over distinct targets that are element nodes,
each sitting once in the document, below the first free address: it runs to the
end and leaves a document with the shape of the input grafted with the fragment
root under every target. -/
theorem c_appendchildxml_loop_spec (f : xmlNode) :
    ∀ (tab : List Nat) (doc : xmlDoc) (brk : Nat),
      tab.Nodup →
      (∀ b ∈ tab, (addrs doc.children).count b = 1 ∧ b < brk ∧ b ∉ textAddrs doc.children) →
      ∃ doc1 brk1, c_appendchildxml_loop f tab (doc, brk) = some (doc1, brk1) ∧
        shape doc1.children = shape (graft tab (alone f) doc.children) ∧
        doc1.encoding = doc.encoding := by
  intro tab
  induction tab with
  | nil =>
    intro doc brk _ _
    refine ⟨doc, brk, rfl, ?_, rfl⟩
    rw [graft_of_disjoint [] (alone f) doc.children (fun _ _ => by simp)]
  | cons a rest ih =>
    intro doc brk hnd hall
    obtain ⟨harest, hndrest⟩ := List.nodup_cons.1 hnd
    obtain ⟨hacount, habrk, hatext⟩ := hall a (List.mem_cons_self _ _)
    have hamem : a ∈ addrs doc.children := List.count_pos_iff.1 (by omega)
    have hcur : ∀ x ∈ addrs (shift brk (alone f)), ∀ b ∈ a :: rest, x ≠ b := by
      intro x hx b hb e
      have h1 := le_of_mem_addrs_shift brk (alone f) x hx
      have h2 := (hall b hb).2.1
      omega
    obtain ⟨doc1, brk1, hrun, hsh, henc⟩ :=
      ih { doc with children := addChildAt a (shift brk (alone f)) doc.children }
        (brk + maxAddr (alone f) + 1) hndrest
        (fun b hb => by
          have hbr := hall b (List.mem_cons_of_mem _ hb)
          have hbcur : b ∉ addrs (shift brk (alone f)) :=
            fun hx => hcur b hx b (List.mem_cons_of_mem _ hb) rfl
          refine ⟨?_, by omega, ?_⟩
          · show (addrs (addChildAt a (shift brk (alone f)) doc.children)).count b = 1
            rw [count_addrs_addChildAt a b _ hbcur]
            exact hbr.1
          · show b ∉ textAddrs (addChildAt a (shift brk (alone f)) doc.children)
            exact not_mem_textAddrs_addChildAt a b _
              (fun hx => hbcur (mem_addrs_of_mem_textAddrs _ b hx)) doc.children hbr.2.2)
    refine ⟨doc1, brk1, ?_, ?_, henc⟩
    · simp only [c_appendchildxml_loop, xmlDocCopyNode, xmlAddChild, hamem, if_true]
      exact hrun
    · rw [hsh]
      exact shape_graft_addChildAt a rest (alone f) (shift brk (alone f)) harest
        (fun x hx hm => hcur x hx x (List.mem_cons_of_mem _ hm) rfl)
        (shape_shift brk (alone f)) doc.children (by omega) hatext

/-- C1, as stated, fails.  On `<root>hi</root>` the path `//text()` matches one
node, the text `hi`; with the fragment `<child/>` the call returns 0 and the
document as it was: the matched node has gained no child, the result has not the
shape the claim gives it (`graft`).  And on `<root><item/></root>` with the path
`/root` the content fragment `<child/><child/>`, which is not a document, is not
appended at all. -/
theorem append_under_text_match_adds_nothing :
    toyEnv.xmlXPathEvalExpression "//text()"
        ⟨.elem 1 "root" (.text 2 "hi" .null) .null, some "UTF-8"⟩
      = some ⟨.XPATH_NODESET, some [2]⟩ ∧
    c_appendchildxml_edit toyEnv ⟨.elem 1 "root" (.text 2 "hi" .null) .null, some "UTF-8"⟩ [2]
        "<child/>"
      = some ⟨.elem 1 "root" (.text 2 "hi" .null) .null, some "UTF-8"⟩ ∧
    shape (.elem 1 "root" (.text 2 "hi" .null) .null)
      ≠ shape (graft [2] (.elem 1 "child" .null .null)
          (.elem 1 "root" (.text 2 "hi" .null) .null)) ∧
    c_appendchildxml toyEnv "<root>hi</root>" "//text()" "<child/>" none
      = some (0, some "<?xml version=\"1.0\" encoding=\"UTF-8\"?>\n<root>hi</root>\n") ∧
    c_appendchildxml toyEnv "<root><item/></root>" "/root" "<child/><child/>" none
      = some (0, some "<?xml version=\"1.0\" encoding=\"UTF-8\"?>\n<root><item/></root>\n") := by
  refine ⟨rfl, rfl, ?_, rfl, rfl⟩
  decide

/-- C1 amended: for a well-formed document, a path whose node set `tab` holds
`n >= 1` nodes of the document, each once and each an element node, and a
fragment that the parser accepts as a document with a root element,
`c_appendchildxml` returns 0 and the serialization of a document that has the
shape of the input in which every matched node has one copy of the fragment's
root element (with everything below it) as its new last child, and nothing else
differs (`graft`); `appendchildxml` returns that text through `xmlparse`. -/
theorem append_child_under_each_element_match (env : Env) (d xpath f : String)
    (doc0 frag : xmlDoc) (r : xmlXPathObject) (tab : List Nat)
    (htext : env.xmltotext_with_xmloption d .XMLOPTION_DOCUMENT = .ok d)
    (htextf : env.xmltotext_with_xmloption f .XMLOPTION_CONTENT = .ok f)
    (hparse : env.xmlParseDoc d = some doc0)
    (hwf : WellFormed doc0)
    (hctx : env.xmlXPathNewContext { doc0 with encoding := some "UTF-8" } = true)
    (heval : env.xmlXPathEvalExpression xpath { doc0 with encoding := some "UTF-8" } = some r)
    (hset : r.nodesetval = some tab)
    (hmatch : 1 ≤ tab.length)
    (hord : InDocOrder tab doc0)
    (helem : ∀ a ∈ tab, a ∉ textAddrs doc0.children)
    (hfrag : env.xmlParseDoc f = some frag)
    (hroot : xmlDocGetRootElement frag ≠ .null) :
    ∃ doc1 : xmlDoc,
      shape doc1.children
        = shape (graft tab (alone (xmlDocGetRootElement frag)) doc0.children) ∧
      doc1.encoding = some "UTF-8" ∧
      c_appendchildxml env d xpath f none
        = some (0, some ((env.xmlDocDumpMemory doc1).getD d)) ∧
      appendchildxml env d xpath f
        = some (env.xmlparse ((env.xmlDocDumpMemory doc1).getD d) .XMLOPTION_CONTENT) := by
  have hnd : tab.Nodup := hwf.1.sublist hord
  obtain ⟨doc1, brk1, hrun, hsh, henc⟩ :=
    c_appendchildxml_loop_spec (xmlDocGetRootElement frag) tab
      { doc0 with encoding := some "UTF-8" } (maxAddr doc0.children + 1) hnd
      (fun b hb => by
        have hm : b ∈ addrs doc0.children := hord.subset hb
        refine ⟨List.count_eq_one_of_mem hwf.1 hm, ?_, helem b hb⟩
        have := le_maxAddr doc0.children b hm
        omega)
  have hed : c_appendchildxml_edit env { doc0 with encoding := some "UTF-8" } tab f
      = some doc1 := by
    unfold c_appendchildxml_edit
    simp only [hfrag]
    cases hr : xmlDocGetRootElement frag with
    | null => exact absurd hr hroot
    | node ty a n c s =>
      rw [hr] at hrun
      simp only [hrun, Option.map_some']
  have hl : ¬ tab.length = 0 := by omega
  have hc : c_appendchildxml env d xpath f none
      = some (0, some ((env.xmlDocDumpMemory doc1).getD d)) := by
    unfold c_appendchildxml
    simp only [hparse, hctx, heval, hset, hl, hed, dumpResult]
    cases env.xmlDocDumpMemory doc1 <;> simp
  refine ⟨doc1, hsh, henc, hc, ?_⟩
  simp [appendchildxml, htext, htextf, hc, wrapResult]

/-- The amended statement at the document of the specification:
`<root><item/></root>`, path `/root`, fragment `<child/>` gives
`<root><item/><child/></root>`. -/
theorem append_child_under_each_element_match_witness :
    (∃ doc1 : xmlDoc,
      shape doc1.children
        = .elem 0 "root" (.elem 0 "item" .null (.elem 0 "child" .null .null)) .null ∧
      appendchildxml toyEnv "<root><item/></root>" "/root" "<child/>"
        = some (toyEnv.xmlparse ((toyEnv.xmlDocDumpMemory doc1).getD "<root><item/></root>")
            .XMLOPTION_CONTENT)) ∧
    appendchildxml toyEnv "<root><item/></root>" "/root" "<child/>"
      = some (.ok "<?xml version=\"1.0\" encoding=\"UTF-8\"?>\n<root><item/><child/></root>\n") :=
  have h := append_child_under_each_element_match toyEnv "<root><item/></root>" "/root"
    "<child/>"
    ⟨.elem 1 "root" (.elem 2 "item" .null .null) .null, none⟩
    ⟨.elem 1 "child" .null .null, none⟩
    ⟨.XPATH_NODESET, some [1]⟩ [1] rfl rfl rfl (by decide) rfl rfl rfl (by decide) (by decide)
    (by decide) rfl (by decide)
  ⟨h.elim fun doc1 hd => ⟨doc1, hd.1, hd.2.2.2⟩, rfl⟩

end PgXmltype
